import Mathlib

/-!
Verification of the diff-reconciliation and review-pipeline core of the
e6 PR-review agent (`agent/diff_parser.py`, `agent/reviewer.py`).

Python strings are modelled as Lean `String` (both are sequences of
code points), Python `int` as `Int`, Python `dict[int, str]` as an
association list with insert-overwrite semantics, and JSON values
returned by the LLM gateway as the inductive `PyVal`.  The tiktoken
encoder behind `count_tokens` is an external library; token counting is
therefore a parameter `ct : String → Nat` of the compression model.
-/

namespace PRAgent

/-- Python `str.splitlines` restricted to the `\n`, `\r\n` and `\r`
line boundaries (the only ones occurring in unified-diff patches):
no trailing empty line is produced for a trailing newline. -/
def pySplitlinesAux : List Char → List Char → List String
  | [], acc => if acc.isEmpty then [] else [String.mk acc.reverse]
  | '\r' :: '\n' :: rest, acc => String.mk acc.reverse :: pySplitlinesAux rest []
  | '\n' :: rest, acc => String.mk acc.reverse :: pySplitlinesAux rest []
  | '\r' :: rest, acc => String.mk acc.reverse :: pySplitlinesAux rest []
  | c :: rest, acc => pySplitlinesAux rest (c :: acc)

def pySplitlines (s : String) : List String :=
  pySplitlinesAux s.data []

/-- Python `str.startswith` (code-point prefix test). -/
def pyStartsWith (s pre : String) : Bool := pre.data.isPrefixOf s.data

/-- Python `str.lower` (ASCII, enough for the enum values involved). -/
def pyLower (s : String) : String := String.mk (s.data.map Char.toLower)

/-- Python `str.upper` (ASCII). -/
def pyUpper (s : String) : String := String.mk (s.data.map Char.toUpper)

/-- Python `s.replace("_", " ")`: the call site replaces the single
character underscore by a space. -/
def underscoresToSpaces (s : String) : String :=
  String.mk (s.data.map (fun c => if c = '_' then ' ' else c))

def isPySpace (c : Char) : Bool :=
  c = ' ' || c = '\t' || c = '\n' || c = '\r' || c = '\x0b' || c = '\x0c'

/-- Python `str.strip()` with no argument: trim whitespace on both ends. -/
def pyStrip (s : String) : String :=
  String.mk (((s.data.dropWhile isPySpace).reverse.dropWhile isPySpace).reverse)

def pyTitleAux : Bool → List Char → List Char
  | _, [] => []
  | prevAlpha, c :: cs =>
    if c.isAlpha then
      (if prevAlpha then c.toLower else c.toUpper) :: pyTitleAux true cs
    else
      c :: pyTitleAux false cs

/-- Python `str.title` (ASCII letters). -/
def pyTitle (s : String) : String := String.mk (pyTitleAux false s.data)

-- ── Diff Reconciler (agent/diff_parser.py) ───────────────────────────────

def takeDigits (cs : List Char) : List Char × List Char :=
  (cs.takeWhile Char.isDigit, cs.dropWhile Char.isDigit)

def digitsVal (ds : List Char) : Nat :=
  ds.foldl (fun n c => n * 10 + (c.toNat - 48)) 0

/-- The optional `(?:,\d+)?` group of `_HUNK_HEADER_RE`.  The character
following the group in the pattern is a space, so with backtracking the
group either consumes `,` followed by at least one digit or the whole
match fails when a comma is present without digits. -/
def skipOptCommaDigits (cs : List Char) : Option (List Char) :=
  match cs with
  | ',' :: rest =>
    let (ds, rest') := takeDigits rest
    if ds.isEmpty then Option.none else some rest'
  | _ => some cs

/-- `_HUNK_HEADER_RE.match(line)` followed by `int(m.group(1))`:
the regex `^@@ -\d+(?:,\d+)? \+(\d+)(?:,\d+)? @@` anchored at the start
of the line, returning the captured new-file start line. -/
def hunkNewStart (line : String) : Option Nat :=
  match line.data with
  | '@' :: '@' :: ' ' :: '-' :: rest =>
    let (d1, rest1) := takeDigits rest
    if d1.isEmpty then Option.none else
    match skipOptCommaDigits rest1 with
    | Option.none => Option.none
    | some rest2 =>
      match rest2 with
      | ' ' :: '+' :: rest3 =>
        let (d2, rest4) := takeDigits rest3
        if d2.isEmpty then Option.none else
        match skipOptCommaDigits rest4 with
        | Option.none => Option.none
        | some rest5 =>
          match rest5 with
          | ' ' :: '@' :: '@' :: _ => some (digitsVal d2)
          | _ => Option.none
      | _ => Option.none
  | _ => Option.none

/-- A Python `dict[int, str]`, as an association list without duplicate
keys; `dictInsert` overwrites in place like dict assignment. -/
abbrev LineMap := List (Int × String)

def dictInsert (m : LineMap) (k : Int) (v : String) : LineMap :=
  if m.any (fun p => p.1 == k) then
    m.map (fun p => if p.1 == k then (k, v) else p)
  else
    m ++ [(k, v)]

def dictGet (m : LineMap) (k : Int) : Option String :=
  (m.find? (fun p => p.1 == k)).map Prod.snd

def dictMem (k : Int) (m : LineMap) : Bool :=
  m.any (fun p => p.1 == k)

/-- One line of `parse_patch_line_map`'s loop classified as in the
source: an added line starts with `+` but not `+++`. -/
def isAddLine (l : String) : Bool :=
  pyStartsWith l "+" && !(pyStartsWith l "+++")

def isDelLine (l : String) : Bool :=
  pyStartsWith l "-" && !(pyStartsWith l "---")

/-- The loop body of `parse_patch_line_map`, over the split lines with
the running new-file counter and the accumulated dict. -/
def parsePatchLines : List String → Int → LineMap → LineMap
  | [], _, acc => acc
  | l :: ls, cur, acc =>
    match hunkNewStart l with
    | some c => parsePatchLines ls (Int.ofNat c) acc
    | Option.none =>
      if isAddLine l then parsePatchLines ls (cur + 1) (dictInsert acc cur l)
      else if isDelLine l then parsePatchLines ls cur acc
      else parsePatchLines ls (cur + 1) acc

/-- `parse_patch_line_map(patch)` from `agent/diff_parser.py`. -/
def parse_patch_line_map (patch : String) : LineMap :=
  parsePatchLines (pySplitlines patch) 0 []

/-- `extract_line_content(line, line_map)` from `agent/diff_parser.py`. -/
def extract_line_content (line : Int) (m : LineMap) : Option String :=
  match dictGet m line with
  | Option.none => Option.none
  | some raw => if pyStartsWith raw "+" then some (raw.drop 1) else some raw

/-- The `for offset in range(1, 4)` loop of `find_closest_line`. -/
def findOffsetLoop (target : Int) (m : LineMap) : List Nat → Option Int
  | [] => Option.none
  | o :: os =>
    if dictMem (target + (o : Int)) m then some (target + (o : Int))
    else if dictMem (target - (o : Int)) m then some (target - (o : Int))
    else findOffsetLoop target m os

/-- `find_closest_line(target, line_map)` from `agent/diff_parser.py`. -/
def find_closest_line (target : Int) (m : LineMap) : Option Int :=
  if m.isEmpty then Option.none
  else if dictMem target m then some target
  else findOffsetLoop target m [1, 2, 3]

-- ── Token Budgeter (agent/diff_parser.py, compress_diff_for_summary) ─────

/-- Modelled from the spec: `agent/models.py` is not in the sources; the
spec's ChangedFile record carries path, change status, added/deleted line
counts, optional unified-diff patch text and a detected language tag.
Only the fields the verified functions read are modelled. -/
structure FileDiff where
  filename : String
  status : String
  additions : Nat
  deletions : Nat
  patch : Option String
  language : String
deriving DecidableEq, Repr

/-- Rendering of `f.patch` inside the Python f-string: an absent patch
prints as `None`. -/
def patchText : Option String → String
  | Option.none => "None"
  | some s => s

/-- The per-file block: header line with name, status and add/delete
counts, then the patch text on the following lines. -/
def entryOf (f : FileDiff) : String :=
  "--- " ++ f.filename ++ " (" ++ f.status ++ ", +" ++ toString f.additions ++
    "/-" ++ toString f.deletions ++ ")\n" ++ patchText f.patch

def removedFilesOf (files : List FileDiff) : List FileDiff :=
  files.filter (fun f => f.status == "removed")

/-- Stable insertion of a file into a list already sorted by additions
descending: the file precedes the first strictly-smaller entry, and
stays after earlier entries with equal additions. -/
def insertByAdditionsDesc (f : FileDiff) : List FileDiff → List FileDiff
  | [] => [f]
  | g :: gs =>
    if g.additions ≤ f.additions then f :: g :: gs
    else g :: insertByAdditionsDesc f gs

/-- `sorted([...], key=lambda f: f.additions, reverse=True)`: a stable
sort, descending by additions. -/
def sortByAdditionsDesc : List FileDiff → List FileDiff
  | [] => []
  | f :: fs => insertByAdditionsDesc f (sortByAdditionsDesc fs)

def activeFilesOf (files : List FileDiff) : List FileDiff :=
  sortByAdditionsDesc (files.filter (fun f => !(f.status == "removed")))

def removedLineOf (files : List FileDiff) : String :=
  "Deleted files: " ++ String.intercalate ", " ((removedFilesOf files).map (·.filename))

/-- The mutable state of `compress_diff_for_summary`'s loop. -/
structure CompressState where
  parts : List String
  used : Nat
  overflow : List String
deriving Repr

/-- State before the `for f in active_files` loop: the deleted-files
line, when present, is appended and counted with no budget check. -/
def compressInit (ct : String → Nat) (files : List FileDiff) : CompressState :=
  if (removedFilesOf files).isEmpty then
    { parts := [], used := 0, overflow := [] }
  else
    { parts := [removedLineOf files], used := ct (removedLineOf files), overflow := [] }

/-- One iteration of `compress_diff_for_summary`'s packing loop. -/
def compressStep (ct : String → Nat) (maxTokens : Nat) (st : CompressState)
    (f : FileDiff) : CompressState :=
  let entry := entryOf f
  let entryTokens := ct entry
  if st.used + entryTokens > maxTokens then
    { st with overflow := st.overflow ++ [f.filename] }
  else
    { parts := st.parts ++ [entry], used := st.used + entryTokens,
      overflow := st.overflow }

def compressState (ct : String → Nat) (files : List FileDiff) (maxTokens : Nat) :
    CompressState :=
  (activeFilesOf files).foldl (compressStep ct maxTokens) (compressInit ct files)

/-- The trailing `[N additional file(s) not shown: ...]` notice. -/
def overflowNotice (overflow : List String) : String :=
  "\n[" ++ toString overflow.length ++ " additional file(s) not shown: " ++
    String.intercalate ", " (overflow.take 10) ++
    (if overflow.length > 10 then " ...]" else "]")

/-- `compress_diff_for_summary(files, max_tokens)` from
`agent/diff_parser.py`, with the tiktoken-backed `count_tokens` supplied
as the parameter `ct`. -/
def compress_diff_for_summary (ct : String → Nat) (files : List FileDiff)
    (maxTokens : Nat) : String :=
  let st := compressState ct files maxTokens
  String.intercalate "\n\n"
    (st.parts ++ if st.overflow.isEmpty then [] else [overflowNotice st.overflow])

-- ── Spec-side reference definitions for the line-map claims ──────────────

/-- Reference map following the spec's words for `buildLineMap`: the
counter is set to the `+c` value of each hunk header, each added line is
recorded at the current counter value which then increments, context
lines increment the counter, deleted lines do not advance it.  Entries
are recorded in encounter order with no overwriting. -/
def specLineMap (cur : Int) : List String → List (Int × String)
  | [] => []
  | l :: ls =>
    match hunkNewStart l with
    | some c => specLineMap (Int.ofNat c) ls
    | Option.none =>
      if isAddLine l then (cur, l) :: specLineMap (cur + 1) ls
      else if isDelLine l then specLineMap cur ls
      else specLineMap (cur + 1) ls

/-- Validity of a patch's line list from counter value `cur`: every hunk
header starts at or after the running new-file counter (hunks are in
order and do not overlap), as in any well-formed unified diff. -/
def validFrom (cur : Int) : List String → Bool
  | [] => true
  | l :: ls =>
    match hunkNewStart l with
    | some c => decide (cur ≤ (c : Int)) && validFrom (Int.ofNat c) ls
    | Option.none =>
      if isAddLine l then validFrom (cur + 1) ls
      else if isDelLine l then validFrom cur ls
      else validFrom (cur + 1) ls

/-- A valid unified-diff patch: non-empty, its first line is a hunk
header, and the hunks are ordered and non-overlapping. -/
def validPatch (patch : String) : Bool :=
  match pySplitlines patch with
  | [] => false
  | l :: _ => (hunkNewStart l).isSome && validFrom 0 (pySplitlines patch)

-- ── Review Pipeline (agent/reviewer.py) ──────────────────────────────────

/-- A Python value as delivered by `json.loads` on the gateway response
(JSON numbers are modelled as integers; floats do not occur in the
verified control flow). -/
inductive PyVal where
  | null
  | bool (b : Bool)
  | int (n : Int)
  | str (s : String)
  | list (xs : List PyVal)
  | dict (entries : List (String × PyVal))

/-- Exceptions that can escape the candidate loops. -/
inductive PyErr where
  | attributeError
  | typeError
deriving DecidableEq, Repr

/-- `d.get(k, dflt)` on a Python dict with string keys. -/
def pyGet (d : List (String × PyVal)) (k : String) (dflt : PyVal) : PyVal :=
  match d.find? (fun p => p.1 == k) with
  | some p => p.2
  | Option.none => dflt

/-- Python truthiness of a value. -/
def pyTruthy : PyVal → Bool
  | .null => false
  | .bool b => b
  | .int n => n != 0
  | .str s => !s.isEmpty
  | .list xs => !xs.isEmpty
  | .dict d => !d.isEmpty

/-- The integer a value denotes in arithmetic and dict-key positions;
Python `bool` is a subtype of `int` (`True == 1`). -/
def pyIntLike : PyVal → Option Int
  | .bool b => some (if b then 1 else 0)
  | .int n => some n
  | _ => Option.none

/-- Modelled from the spec: `agent/models.py` is not in the sources; the
severity enumeration's members are evidenced by `SEVERITY_BADGES` in
`agent/reviewer.py` and the tag list in `agent/prompts.py`. -/
inductive ReviewSeverity where
  | critical
  | warning
  | suggestion
  | nitpick
deriving DecidableEq, Repr

def ReviewSeverity.value : ReviewSeverity → String
  | .critical => "critical"
  | .warning => "warning"
  | .suggestion => "suggestion"
  | .nitpick => "nitpick"

/-- `ReviewSeverity(s)`: enum lookup by value. -/
def severityFromValue (s : String) : Option ReviewSeverity :=
  if s = "critical" then some .critical
  else if s = "warning" then some .warning
  else if s = "suggestion" then some .suggestion
  else if s = "nitpick" then some .nitpick
  else Option.none

/-- Modelled from the spec: `agent/models.py` is not in the sources; the
category enumeration's members are evidenced by the tag list in
`agent/prompts.py` plus the `LOGGING` member used in `agent/reviewer.py`. -/
inductive ReviewCategory where
  | bug_risk
  | security
  | performance
  | maintainability
  | error_handling
  | best_practice
  | logic
  | concurrency
  | resource_management
  | logging
deriving DecidableEq, Repr

def ReviewCategory.value : ReviewCategory → String
  | .bug_risk => "bug_risk"
  | .security => "security"
  | .performance => "performance"
  | .maintainability => "maintainability"
  | .error_handling => "error_handling"
  | .best_practice => "best_practice"
  | .logic => "logic"
  | .concurrency => "concurrency"
  | .resource_management => "resource_management"
  | .logging => "logging"

/-- `ReviewCategory(s)`: enum lookup by value. -/
def categoryFromValue (s : String) : Option ReviewCategory :=
  if s = "bug_risk" then some .bug_risk
  else if s = "security" then some .security
  else if s = "performance" then some .performance
  else if s = "maintainability" then some .maintainability
  else if s = "error_handling" then some .error_handling
  else if s = "best_practice" then some .best_practice
  else if s = "logic" then some .logic
  else if s = "concurrency" then some .concurrency
  else if s = "resource_management" then some .resource_management
  else if s = "logging" then some .logging
  else Option.none

/-- `_safe_enum(value, cls, default)` from `agent/reviewer.py`:
`cls(value.lower())` with `ValueError`/`KeyError` caught.  Calling
`.lower()` on a non-string raises `AttributeError`, which is not among
the caught exceptions. -/
def safe_enum (fromValue : String → Option α) (dflt : α) (v : PyVal) :
    Except PyErr α :=
  match v with
  | .str s =>
    match fromValue (pyLower s) with
    | some x => .ok x
    | Option.none => .ok dflt
  | _ => .error .attributeError

/-- Modelled from the spec: the Finding record of `agent/models.py`
(path, line, rendered body, severity and category). -/
structure ReviewComment where
  path : String
  line : Int
  body : String
  severity : ReviewSeverity
  category : ReviewCategory
deriving DecidableEq, Repr

/-- `SEVERITY_BADGES.get(severity, ":bulb:")`; the table is total over
the enumeration, so the default never fires. -/
def severityBadge : ReviewSeverity → String
  | .critical => ":rotating_light:"
  | .warning => ":warning:"
  | .suggestion => ":bulb:"
  | .nitpick => ":mag:"

/-- `file.language or "text"`. -/
def langOf (f : FileDiff) : String :=
  if f.language.isEmpty then "text" else f.language

def patchOf (f : FileDiff) : String := f.patch.getD ""

/-- `if f.patch` in the task list comprehensions: truthiness of the
optional patch text. -/
def hasPatch (f : FileDiff) : Bool :=
  match f.patch with
  | some s => !s.isEmpty
  | Option.none => false

/-- The `line not in line_map` test followed by `find_closest_line`:
an integral line is checked and repaired; a non-empty string line is
never a key, and repairing it raises `TypeError` from `target + offset`
unless the map is empty (in which case `find_closest_line` returns
`None` first); a list or dict line is unhashable, so the membership
test itself raises `TypeError`. -/
def lineMembershipOrRepair (lineV : PyVal) (m : LineMap) :
    Except PyErr (Option Int) :=
  match pyIntLike lineV with
  | some n =>
    if dictMem n m then .ok (some n)
    else .ok (find_closest_line n m)
  | Option.none =>
    match lineV with
    | .str _ => if m.isEmpty then .ok Option.none else .error .typeError
    | _ => .error .typeError

/-- One iteration of the candidate loop of `_review_single_file`, for an
item that is a dict. -/
def reviewCandidate (f : FileDiff) (m : LineMap)
    (d : List (String × PyVal)) : Except PyErr (Option ReviewComment) :=
  let lineV := pyGet d "line" .null
  match pyGet d "body" (.str "") with
  | .str bodyRaw =>
    let body := pyStrip bodyRaw
    if !(pyTruthy lineV) || body.isEmpty then .ok Option.none
    else
      match lineMembershipOrRepair lineV m with
      | .error e => .error e
      | .ok Option.none => .ok Option.none
      | .ok (some line) =>
        match safe_enum severityFromValue ReviewSeverity.suggestion
            (pyGet d "severity" (.str "")) with
        | .error e => .error e
        | .ok severity =>
          match safe_enum categoryFromValue ReviewCategory.best_practice
              (pyGet d "category" (.str "")) with
          | .error e => .error e
          | .ok category =>
            let badge := severityBadge severity
            let catLabel := pyTitle (underscoresToSpaces category.value)
            let formatted := badge ++ " **" ++ pyUpper severity.value ++ "** | " ++
              catLabel ++ "\n\n" ++ body
            .ok (some { path := f.filename, line := line, body := formatted,
                        severity := severity, category := category })
  | _ => .error .attributeError

/-- The `for item in data` loop of `_review_single_file`; an exception
raised by any iteration propagates and discards the list built so far. -/
def reviewLoop (f : FileDiff) (m : LineMap) :
    List PyVal → Except PyErr (List ReviewComment)
  | [] => .ok []
  | item :: rest =>
    match item with
    | .dict d =>
      match reviewCandidate f m d with
      | .error e => .error e
      | .ok c? =>
        match reviewLoop f m rest with
        | .error e => .error e
        | .ok cs => .ok (c?.toList ++ cs)
    | _ => reviewLoop f m rest

/-- The gateway's contribution for one file: the parsed JSON payload of
a successful `complete_json` call, or a raised exception.  Prompt text
and usage accounting do not affect the verified control flow and are
not modelled. -/
inductive GwOutcome where
  | ok (data : PyVal)
  | err

/-- `_review_single_file` after tier selection: the `try`/`except`
around `complete_json` turns a gateway failure into zero comments, a
non-list payload returns zero comments, and the candidate loop may
itself raise out of the coroutine. -/
def reviewSingleFile (outcome : GwOutcome) (f : FileDiff) :
    Except PyErr (List ReviewComment) :=
  match outcome with
  | .err => .ok []
  | .ok data =>
    match data with
    | .list items => reviewLoop f (parse_patch_line_map (patchOf f)) items
    | _ => .ok []

/-- The collection loop after `asyncio.gather(..., return_exceptions=True)`:
exception results are logged and skipped, list results are concatenated
in task order. -/
def gatherFold (results : List (Except PyErr (List ReviewComment))) :
    List ReviewComment :=
  results.foldl
    (fun acc r => match r with | .error _ => acc | .ok cs => acc ++ cs) []

/-- `_review_files`: one task per file with a truthy patch, gathered
with isolated exceptions. -/
def reviewFiles (gw : FileDiff → GwOutcome) (files : List FileDiff) :
    List ReviewComment :=
  gatherFold ((files.filter hasPatch).map (fun f => reviewSingleFile (gw f) f))

/-- One iteration of the candidate loop of
`_suggest_logging_single_file`, for an item that is a dict.  The
`log_statement`, `reason` and `level` fields are all `.strip()`-ed
before the skip test, so a non-string in any of them raises. -/
def suggestCandidate (f : FileDiff) (m : LineMap)
    (d : List (String × PyVal)) : Except PyErr (Option ReviewComment) :=
  let lineV := pyGet d "line" .null
  match pyGet d "log_statement" (.str "") with
  | .str stmtRaw =>
    match pyGet d "reason" (.str "") with
    | .str reasonRaw =>
      match pyGet d "level" (.str "info") with
      | .str levelRaw =>
        let stmt := pyStrip stmtRaw
        let reason := pyStrip reasonRaw
        let level := pyLower (pyStrip levelRaw)
        if !(pyTruthy lineV) || stmt.isEmpty then .ok Option.none
        else
          match lineMembershipOrRepair lineV m with
          | .error e => .error e
          | .ok Option.none => .ok Option.none
          | .ok (some line) =>
            let levelEmoji :=
              if level = "error" then ":red_circle:"
              else if level = "warn" then ":large_orange_diamond:"
              else if level = "info" then ":blue_circle:"
              else if level = "debug" then ":white_circle:"
              else ":blue_circle:"
            let body := ":memo: **LOGGING** | " ++ levelEmoji ++ " `" ++
              pyUpper level ++ "`\n\n**Suggested log statement:**\n```" ++
              langOf f ++ "\n" ++ stmt ++ "\n```\n_" ++ reason ++ "_"
            .ok (some { path := f.filename, line := line, body := body,
                        severity := ReviewSeverity.suggestion,
                        category := ReviewCategory.logging })
      | _ => .error .attributeError
    | _ => .error .attributeError
  | _ => .error .attributeError

/-- The `for item in data` loop of `_suggest_logging_single_file`. -/
def suggestLoop (f : FileDiff) (m : LineMap) :
    List PyVal → Except PyErr (List ReviewComment)
  | [] => .ok []
  | item :: rest =>
    match item with
    | .dict d =>
      match suggestCandidate f m d with
      | .error e => .error e
      | .ok c? =>
        match suggestLoop f m rest with
        | .error e => .error e
        | .ok cs => .ok (c?.toList ++ cs)
    | _ => suggestLoop f m rest

/-- `_suggest_logging_single_file` after the gateway call. -/
def suggestSingleFile (outcome : GwOutcome) (f : FileDiff) :
    Except PyErr (List ReviewComment) :=
  match outcome with
  | .err => .ok []
  | .ok data =>
    match data with
    | .list items => suggestLoop f (parse_patch_line_map (patchOf f)) items
    | _ => .ok []

/-- `_suggest_logging_for_files`: gathered per-file logging tasks. -/
def suggestFiles (gw : FileDiff → GwOutcome) (files : List FileDiff) :
    List ReviewComment :=
  gatherFold ((files.filter hasPatch).map (fun f => suggestSingleFile (gw f) f))

/-- Modelled from the spec: the Summary record of `agent/models.py`
(purpose, changes, and the optional key-file / risk-area / test-note
fields). -/
structure PRSummary where
  purpose : String
  changes : List String
  key_files : List String := []
  risk_areas : List String := []
  test_coverage_note : Option String := Option.none
deriving DecidableEq, Repr

/-- The deterministic fallback Summary built from PR metadata alone. -/
def fallbackSummary (title : String) (changedFiles additions deletions : Nat) :
    PRSummary :=
  { purpose := "Changes in " ++ toString changedFiles ++ " file(s): " ++ title,
    changes := ["+" ++ toString additions ++ "/-" ++ toString deletions ++
      " lines changed"] }

/-- `_generate_summary` after the gateway call: on success with a dict
payload, `PRSummary(**data)` (abstracted as `mkSummary`, since
`agent/models.py` is not in the sources) is returned; any raised
exception and any non-dict payload fall through to the fallback. -/
def generate_summary (outcome : GwOutcome)
    (mkSummary : List (String × PyVal) → Except PyErr PRSummary)
    (title : String) (changedFiles additions deletions : Nat) : PRSummary :=
  match outcome with
  | .err => fallbackSummary title changedFiles additions deletions
  | .ok data =>
    match data with
    | .dict d =>
      match mkSummary d with
      | .ok s => s
      | .error _ => fallbackSummary title changedFiles additions deletions
    | _ => fallbackSummary title changedFiles additions deletions

/-- The aggregate assembled by `ReviewEngine.review` (identifiers,
timing and usage rollup omitted: they do not affect the verified
claims). -/
structure ReviewResultM where
  summary : PRSummary
  comments : List ReviewComment
  files_reviewed : Nat
  skipped_files : List String
deriving Repr

/-- `ReviewEngine.review`: Stage-0 summary (success or fallback), then
the per-file review pass, then the optional logging pass, aggregated in
stage order. -/
def runReview (sumOutcome : GwOutcome)
    (mkSummary : List (String × PyVal) → Except PyErr PRSummary)
    (gwReview gwLog : FileDiff → GwOutcome) (suggest_logging : Bool)
    (title : String) (additions deletions : Nat)
    (files : List FileDiff) (skipped : List String) : ReviewResultM :=
  let summary := generate_summary sumOutcome mkSummary title
    (files.length + skipped.length) additions deletions
  let reviewComments := reviewFiles gwReview files
  let comments :=
    if suggest_logging then reviewComments ++ suggestFiles gwLog files
    else reviewComments
  { summary := summary, comments := comments,
    files_reviewed := files.length, skipped_files := skipped }

def PyVal.isList : PyVal → Bool
  | .list _ => true
  | _ => false

def PyVal.isDict : PyVal → Bool
  | .dict _ => true
  | _ => false

/-- What one file contributes to the gathered Stage-1 result: its
comments on success, nothing when its task ended in an exception. -/
def reviewContrib (gw : FileDiff → GwOutcome) (f : FileDiff) :
    List ReviewComment :=
  match reviewSingleFile (gw f) f with
  | .ok cs => cs
  | .error _ => []

/-- What one file contributes to the gathered Stage-2 result. -/
def suggestContrib (gw : FileDiff → GwOutcome) (f : FileDiff) :
    List ReviewComment :=
  match suggestSingleFile (gw f) f with
  | .ok cs => cs
  | .error _ => []

/-- `t` occurs as a contiguous substring of `s`. -/
def strInfix (t s : String) : Prop := ∃ pre post, s = pre ++ t ++ post

-- ── Lemmas about the Diff Reconciler ─────────────────────────────────────

theorem isEmpty_eq_nil {m : LineMap} (h : m.isEmpty = true) : m = [] := by
  cases m with
  | nil => rfl
  | cons a l => simp [List.isEmpty] at h

theorem find_closest_line_eq_find? (m : LineMap) (n : Int)
    (h : dictMem n m = false) :
    find_closest_line n m =
      [n + 1, n - 1, n + 2, n - 2, n + 3, n - 3].find? (fun v => dictMem v m) := by
  unfold find_closest_line
  by_cases he : m.isEmpty = true
  · have hm : m = [] := isEmpty_eq_nil he
    subst hm
    simp [dictMem, List.find?]
  · simp only [he, if_false, h, Bool.false_eq_true]
    cases h1 : dictMem (n + 1) m <;> cases h2 : dictMem (n - 1) m <;>
      cases h3 : dictMem (n + 2) m <;> cases h4 : dictMem (n - 2) m <;>
        cases h5 : dictMem (n + 3) m <;> cases h6 : dictMem (n - 3) m <;>
          simp_all [findOffsetLoop, List.find?]

theorem find_closest_line_mem {m : LineMap} {n v : Int}
    (h : find_closest_line n m = some v) :
    dictMem v m = true ∧ (v - n).natAbs ≤ 3 := by
  unfold find_closest_line at h
  by_cases he : m.isEmpty = true
  · simp [he] at h
  · rw [if_neg he] at h
    by_cases hm : dictMem n m = true
    · rw [if_pos hm] at h
      injection h with hv
      subst hv
      exact ⟨hm, by omega⟩
    · rw [if_neg hm] at h
      simp only [findOffsetLoop] at h
      split_ifs at h with h1 h2 h3 h4 h5 h6 <;>
        (injection h with hv; subst hv; refine ⟨by assumption, by omega⟩)

/-- C3: `find_closest_line` returns the target itself when it is a key;
otherwise it probes `n+1, n−1, n+2, n−2, n+3, n−3` in that order and
returns the first key found, so every returned value is within 3 of the
target; it returns `None` on an empty map and when no key lies within 3
of the target. -/
theorem find_closest_line_spec (m : LineMap) (n : Int) :
    (dictMem n m = true → find_closest_line n m = some n)
  ∧ (∀ v, find_closest_line n m = some v →
      dictMem v m = true ∧ (v - n).natAbs ≤ 3)
  ∧ (m = [] → find_closest_line n m = Option.none)
  ∧ ((∀ v, dictMem v m = true → 3 < (v - n).natAbs) →
      find_closest_line n m = Option.none)
  ∧ (dictMem n m = false →
      find_closest_line n m =
        [n + 1, n - 1, n + 2, n - 2, n + 3, n - 3].find? (fun v => dictMem v m)) := by
  refine ⟨?_, ?_, ?_, ?_, ?_⟩
  · intro hm
    have hne : ¬ (m.isEmpty = true) := by
      intro he
      rw [isEmpty_eq_nil he] at hm
      simp [dictMem] at hm
    unfold find_closest_line
    rw [if_neg hne, if_pos hm]
  · intro v hv
    exact find_closest_line_mem hv
  · intro hnil
    subst hnil
    rfl
  · intro hfar
    have h0 : dictMem n m = false := by
      cases hm : dictMem n m with
      | false => rfl
      | true => exact absurd (hfar n hm) (by omega)
    rw [find_closest_line_eq_find? m n h0]
    have h1 : dictMem (n + 1) m = false := by
      cases hh : dictMem (n + 1) m with
      | false => rfl
      | true => exact absurd (hfar _ hh) (by omega)
    have h2 : dictMem (n - 1) m = false := by
      cases hh : dictMem (n - 1) m with
      | false => rfl
      | true => exact absurd (hfar _ hh) (by omega)
    have h3 : dictMem (n + 2) m = false := by
      cases hh : dictMem (n + 2) m with
      | false => rfl
      | true => exact absurd (hfar _ hh) (by omega)
    have h4 : dictMem (n - 2) m = false := by
      cases hh : dictMem (n - 2) m with
      | false => rfl
      | true => exact absurd (hfar _ hh) (by omega)
    have h5 : dictMem (n + 3) m = false := by
      cases hh : dictMem (n + 3) m with
      | false => rfl
      | true => exact absurd (hfar _ hh) (by omega)
    have h6 : dictMem (n - 3) m = false := by
      cases hh : dictMem (n - 3) m with
      | false => rfl
      | true => exact absurd (hfar _ hh) (by omega)
    simp [List.find?, h1, h2, h3, h4, h5, h6]
  · intro h
    exact find_closest_line_eq_find? m n h

/-- Witness for C3 at a concrete map: the target 11 is absent, the probe
at +1 misses, the probe at −1 hits 10; and a target 4 past the nearest
key is not repaired. -/
theorem find_closest_line_spec_witness :
    find_closest_line 11 [((10 : Int), "+code")] = some 10
  ∧ find_closest_line 14 [((10 : Int), "+code")] = Option.none := by
  constructor
  · have h := (find_closest_line_spec [((10 : Int), "+code")] 11).2.2.2.2 (by decide)
    rw [h]
    decide
  · refine (find_closest_line_spec [((10 : Int), "+code")] 14).2.2.2.1 ?_
    intro v hv
    have hv10 : v = 10 := by
      simp [dictMem] at hv
      omega
    subst hv10
    decide

theorem mem_dictInsert {m : LineMap} {k : Int} {v : String} {p : Int × String}
    (h : p ∈ dictInsert m k v) : p ∈ m ∨ p.2 = v := by
  unfold dictInsert at h
  split at h
  · rcases List.mem_map.1 h with ⟨q, hq, hpq⟩
    by_cases hk : (q.1 == k) = true
    · right
      rw [← hpq]
      simp [hk]
    · left
      rw [← hpq]
      simp only [hk, if_false, Bool.false_eq_true]
      exact hq
  · rcases List.mem_append.1 h with h' | h'
    · left
      exact h'
    · right
      have : p = (k, v) := by simpa using h'
      rw [this]

theorem parsePatchLines_values {ls : List String} :
    ∀ (cur : Int) (acc : LineMap),
      (∀ p ∈ acc, pyStartsWith p.2 "+" = true) →
      ∀ p ∈ parsePatchLines ls cur acc, pyStartsWith p.2 "+" = true := by
  induction ls with
  | nil =>
    intro cur acc hacc p hp
    exact hacc p hp
  | cons l ls ih =>
    intro cur acc hacc p hp
    rw [parsePatchLines] at hp
    cases hnk : hunkNewStart l with
    | some c =>
      rw [hnk] at hp
      exact ih _ _ hacc p hp
    | none =>
      rw [hnk] at hp
      by_cases ha : isAddLine l = true
      · rw [if_pos ha] at hp
        refine ih _ _ ?_ p hp
        intro q hq
        rcases mem_dictInsert hq with h' | h'
        · exact hacc q h'
        · rw [h']
          have hs := ha
          simp only [isAddLine, Bool.and_eq_true] at hs
          exact hs.1
      · rw [if_neg ha] at hp
        by_cases hd : isDelLine l = true
        · rw [if_pos hd] at hp
          exact ih _ _ hacc p hp
        · rw [if_neg hd] at hp
          exact ih _ _ hacc p hp

theorem dictGet_mem {m : LineMap} {n : Int} {raw : String}
    (h : dictGet m n = some raw) : (n, raw) ∈ m := by
  unfold dictGet at h
  cases hf : m.find? (fun p => p.1 == n) with
  | none =>
    rw [hf] at h
    cases h
  | some p =>
    rw [hf] at h
    have hmem := List.mem_of_find?_eq_some hf
    have hpred := List.find?_some hf
    have h2 : p.2 = raw := by simpa using h
    have h1 : p.1 = n := by simpa using hpred
    have : p = (n, raw) := by
      cases p
      simp_all
    rw [← this]
    exact hmem

theorem dictMem_iff_get {m : LineMap} {n : Int} :
    dictMem n m = true ↔ ∃ raw, dictGet m n = some raw := by
  constructor
  · intro h
    have hex : ∃ x ∈ m, (x.1 == n) = true := List.any_eq_true.1 h
    have hsome : (m.find? (fun p => p.1 == n)).isSome := by
      rw [List.find?_isSome]
      exact hex
    rcases Option.isSome_iff_exists.1 hsome with ⟨p, hp⟩
    refine ⟨p.2, ?_⟩
    unfold dictGet
    rw [hp]
    rfl
  · rintro ⟨raw, h⟩
    have hmem := dictGet_mem h
    exact List.any_eq_true.2 ⟨(n, raw), hmem, by simp⟩

/-- C2 counterexample: on the spec's single-hunk scenario the stored
value keeps its leading `+`, so the resulting map is
`{2: "+added_line"}` and not `{2: "added_line"}`. -/
theorem parse_patch_scenario_counterexample :
    parse_patch_line_map "@@ -1,3 +1,4 @@\n line1\n+added_line\n line2\n line3\n"
      = [((2 : Int), "+added_line")]
  ∧ parse_patch_line_map "@@ -1,3 +1,4 @@\n line1\n+added_line\n line2\n line3\n"
      ≠ [((2 : Int), "added_line")] := by
  refine ⟨by decide, by decide⟩

/-- C2 (amended): each value stored by `parse_patch_line_map` is the raw
added diff line, retaining its leading `+`; the single-hunk scenario
yields exactly `{2: "+added_line"}` and the two-hunk scenario yields a
map containing `{2: "+a", 12: "+b"}`. -/
theorem parse_patch_values_raw :
    (∀ (patch : String) (p : Int × String),
        p ∈ parse_patch_line_map patch → pyStartsWith p.2 "+" = true)
  ∧ parse_patch_line_map "@@ -1,3 +1,4 @@\n line1\n+added_line\n line2\n line3\n"
      = [((2 : Int), "+added_line")]
  ∧ dictGet (parse_patch_line_map
      "@@ -1,3 +1,4 @@\n ctx\n+a\n ctx\n@@ -10,3 +11,4 @@\n ctx\n+b\n ctx\n") 2
      = some "+a"
  ∧ dictGet (parse_patch_line_map
      "@@ -1,3 +1,4 @@\n ctx\n+a\n ctx\n@@ -10,3 +11,4 @@\n ctx\n+b\n ctx\n") 12
      = some "+b" := by
  refine ⟨?_, by decide, by decide, by decide⟩
  intro patch p hp
  exact parsePatchLines_values 0 [] (by intro q hq; cases hq) p hp

/-- Witness for the amended C2: the stored scenario value does start
with `+`. -/
theorem parse_patch_values_raw_witness :
    (((2 : Int), "+added_line") ∈
        parse_patch_line_map "@@ -1,3 +1,4 @@\n line1\n+added_line\n line2\n line3\n")
    ∧ pyStartsWith "+added_line" "+" = true := by
  refine ⟨by decide, ?_⟩
  exact parse_patch_values_raw.1
    "@@ -1,3 +1,4 @@\n line1\n+added_line\n line2\n line3\n"
    ((2 : Int), "+added_line") (by decide)

/-- C9: for every key of the parsed line map, the stored value retains
the `+` prefix and `extract_line_content` returns it with the single
leading `+` removed — the accessor that completes the round trip from
patch text to added-line source content. -/
theorem extract_line_content_roundtrip (patch : String) (n : Int)
    (h : dictMem n (parse_patch_line_map patch) = true) :
    ∃ raw, dictGet (parse_patch_line_map patch) n = some raw
      ∧ pyStartsWith raw "+" = true
      ∧ extract_line_content n (parse_patch_line_map patch) = some (raw.drop 1) := by
  rcases dictMem_iff_get.1 h with ⟨raw, hget⟩
  have hmem : (n, raw) ∈ parsePatchLines (pySplitlines patch) 0 [] :=
    dictGet_mem hget
  have hplus : pyStartsWith raw "+" = true :=
    parsePatchLines_values 0 [] (by intro q hq; cases hq) (n, raw) hmem
  refine ⟨raw, hget, hplus, ?_⟩
  unfold extract_line_content
  rw [hget]
  simp [hplus]

/-- Witness for C9 at the single-hunk scenario, key 2. -/
theorem extract_line_content_roundtrip_witness :
    dictMem 2 (parse_patch_line_map
      "@@ -1,3 +1,4 @@\n line1\n+added_line\n line2\n line3\n") = true
  ∧ ∃ raw, dictGet (parse_patch_line_map
        "@@ -1,3 +1,4 @@\n line1\n+added_line\n line2\n line3\n") 2 = some raw
      ∧ pyStartsWith raw "+" = true
      ∧ extract_line_content 2 (parse_patch_line_map
          "@@ -1,3 +1,4 @@\n line1\n+added_line\n line2\n line3\n")
          = some (raw.drop 1) :=
  ⟨by decide, extract_line_content_roundtrip
    "@@ -1,3 +1,4 @@\n line1\n+added_line\n line2\n line3\n" 2 (by decide)⟩

theorem dictInsert_notmem {m : LineMap} {k : Int} {v : String}
    (h : ∀ p ∈ m, p.1 ≠ k) : dictInsert m k v = m ++ [(k, v)] := by
  unfold dictInsert
  rw [if_neg]
  intro hany
  rcases List.any_eq_true.1 hany with ⟨p, hp, hpk⟩
  exact h p hp (by simpa using hpk)

theorem parsePatchLines_eq_spec :
    ∀ (ls : List String) (cur : Int) (acc : LineMap),
      (∀ p ∈ acc, p.1 < cur) → validFrom cur ls = true →
      parsePatchLines ls cur acc = acc ++ specLineMap cur ls := by
  intro ls
  induction ls with
  | nil =>
    intro cur acc _ _
    simp [parsePatchLines, specLineMap]
  | cons l ls ih =>
    intro cur acc hacc hval
    rw [parsePatchLines, specLineMap]
    rw [validFrom] at hval
    cases hnk : hunkNewStart l with
    | some c =>
      simp only [hnk] at hval
      dsimp only
      rw [Bool.and_eq_true] at hval
      have hle : cur ≤ (c : Int) := of_decide_eq_true hval.1
      exact ih _ _ (fun p hp => lt_of_lt_of_le (hacc p hp) hle) hval.2
    | none =>
      simp only [hnk] at hval
      dsimp only
      by_cases ha : isAddLine l = true
      · simp only [if_pos ha] at hval ⊢
        rw [dictInsert_notmem (fun p hp => ne_of_lt (hacc p hp))]
        have hacc' : ∀ p ∈ acc ++ [(cur, l)], p.1 < cur + 1 := by
          intro p hp
          rcases List.mem_append.1 hp with hp | hp
          · exact lt_trans (hacc p hp) (by omega)
          · have hpl : p = (cur, l) := by simpa using hp
            rw [hpl]
            omega
        rw [ih _ _ hacc' hval]
        simp
      · simp only [if_neg ha] at hval ⊢
        by_cases hd : isDelLine l = true
        · simp only [if_pos hd] at hval ⊢
          exact ih _ _ hacc hval
        · simp only [if_neg hd] at hval ⊢
          exact ih _ _ (fun p hp => lt_trans (hacc p hp) (by omega)) hval

theorem specLineMap_keys_ge :
    ∀ (ls : List String) (cur : Int), validFrom cur ls = true →
      ∀ p ∈ specLineMap cur ls, cur ≤ p.1 := by
  intro ls
  induction ls with
  | nil =>
    intro cur _ p hp
    cases hp
  | cons l ls ih =>
    intro cur hval p hp
    rw [specLineMap] at hp
    rw [validFrom] at hval
    cases hnk : hunkNewStart l with
    | some c =>
      simp only [hnk] at hp hval
      rw [Bool.and_eq_true] at hval
      have hle : cur ≤ (c : Int) := of_decide_eq_true hval.1
      exact le_trans hle (ih _ hval.2 p hp)
    | none =>
      simp only [hnk] at hp hval
      by_cases ha : isAddLine l = true
      · simp only [if_pos ha] at hp hval
        rcases List.mem_cons.1 hp with hp | hp
        · rw [hp]
        · have := ih _ hval p hp
          omega
      · simp only [if_neg ha] at hp hval
        by_cases hd : isDelLine l = true
        · simp only [if_pos hd] at hp hval
          exact ih _ hval p hp
        · simp only [if_neg hd] at hp hval
          have := ih _ hval p hp
          omega

theorem specLineMap_pairwise :
    ∀ (ls : List String) (cur : Int), validFrom cur ls = true →
      (specLineMap cur ls).Pairwise (fun p q => p.1 < q.1) := by
  intro ls
  induction ls with
  | nil =>
    intro cur _
    simp [specLineMap]
  | cons l ls ih =>
    intro cur hval
    rw [specLineMap]
    rw [validFrom] at hval
    cases hnk : hunkNewStart l with
    | some c =>
      simp only [hnk] at hval
      dsimp only
      rw [Bool.and_eq_true] at hval
      exact ih _ hval.2
    | none =>
      simp only [hnk] at hval
      dsimp only
      by_cases ha : isAddLine l = true
      · simp only [if_pos ha] at hval ⊢
        refine List.Pairwise.cons ?_ (ih _ hval)
        intro q hq
        have := specLineMap_keys_ge ls (cur + 1) hval q hq
        show cur < q.1
        omega
      · simp only [if_neg ha] at hval ⊢
        by_cases hd : isDelLine l = true
        · simp only [if_pos hd] at hval ⊢
          exact ih _ hval
        · simp only [if_neg hd] at hval ⊢
          exact ih _ hval

/-- C1: on every valid unified-diff patch, `parse_patch_line_map` equals
the reference map that sets the counter to each hunk header's `+c` value
and increments it once per context line and once per added line, never
on deletions; its entries have strictly increasing keys, so each
new-file line number is assigned to at most one added line. -/
theorem parse_patch_line_map_valid (patch : String)
    (h : validPatch patch = true) :
    parse_patch_line_map patch = specLineMap 0 (pySplitlines patch)
  ∧ (specLineMap 0 (pySplitlines patch)).Pairwise (fun p q => p.1 < q.1)
  ∧ ((parse_patch_line_map patch).map Prod.fst).Nodup := by
  have hval : validFrom 0 (pySplitlines patch) = true := by
    unfold validPatch at h
    cases hls : pySplitlines patch with
    | nil =>
      rw [hls] at h
      cases h
    | cons l ls =>
      rw [hls] at h
      dsimp only at h
      rw [Bool.and_eq_true] at h
      exact h.2
  have heq : parse_patch_line_map patch = specLineMap 0 (pySplitlines patch) := by
    unfold parse_patch_line_map
    have := parsePatchLines_eq_spec (pySplitlines patch) 0 []
      (by intro p hp; cases hp) hval
    simpa using this
  have hpw := specLineMap_pairwise (pySplitlines patch) 0 hval
  refine ⟨heq, hpw, ?_⟩
  rw [heq]
  have hnd : ((specLineMap 0 (pySplitlines patch)).map Prod.fst).Pairwise (· ≠ ·) := by
    rw [List.pairwise_map]
    exact hpw.imp (fun h => ne_of_lt h)
  exact hnd

/-- Witness for C1 at the spec's two-hunk scenario patch. -/
theorem parse_patch_line_map_valid_witness :
    validPatch "@@ -1,3 +1,4 @@\n ctx\n+a\n ctx\n@@ -10,3 +11,4 @@\n ctx\n+b\n ctx\n" = true
  ∧ (parse_patch_line_map "@@ -1,3 +1,4 @@\n ctx\n+a\n ctx\n@@ -10,3 +11,4 @@\n ctx\n+b\n ctx\n"
      = specLineMap 0 (pySplitlines "@@ -1,3 +1,4 @@\n ctx\n+a\n ctx\n@@ -10,3 +11,4 @@\n ctx\n+b\n ctx\n")
    ∧ (specLineMap 0 (pySplitlines "@@ -1,3 +1,4 @@\n ctx\n+a\n ctx\n@@ -10,3 +11,4 @@\n ctx\n+b\n ctx\n")).Pairwise
        (fun p q => p.1 < q.1)
    ∧ ((parse_patch_line_map "@@ -1,3 +1,4 @@\n ctx\n+a\n ctx\n@@ -10,3 +11,4 @@\n ctx\n+b\n ctx\n").map
        Prod.fst).Nodup) :=
  ⟨by decide, parse_patch_line_map_valid
    "@@ -1,3 +1,4 @@\n ctx\n+a\n ctx\n@@ -10,3 +11,4 @@\n ctx\n+b\n ctx\n" (by decide)⟩

-- ── Lemmas about the Token Budgeter ──────────────────────────────────────

theorem strInfix_trans {a b c : String} (h1 : strInfix a b) (h2 : strInfix b c) :
    strInfix a c := by
  obtain ⟨p1, q1, hb⟩ := h1
  obtain ⟨p2, q2, hc⟩ := h2
  refine ⟨p2 ++ p1, q1 ++ q2, ?_⟩
  rw [hc, hb]
  simp [String.append_assoc]

theorem strInfix_refl (t : String) : strInfix t t :=
  ⟨"", "", by simp⟩

theorem intercalate_go_acc_substr (sep : String) :
    ∀ (l : List String) (acc : String),
      strInfix acc (String.intercalate.go acc sep l) := by
  intro l
  induction l with
  | nil =>
    intro acc
    exact strInfix_refl acc
  | cons a as ih =>
    intro acc
    show strInfix acc (String.intercalate.go (acc ++ sep ++ a) sep as)
    refine strInfix_trans ⟨"", sep ++ a, ?_⟩ (ih (acc ++ sep ++ a))
    simp [String.append_assoc]

theorem intercalate_go_mem_substr (sep : String) :
    ∀ (l : List String) (acc x : String), x ∈ l →
      strInfix x (String.intercalate.go acc sep l) := by
  intro l
  induction l with
  | nil =>
    intro acc x hx
    cases hx
  | cons a as ih =>
    intro acc x hx
    show strInfix x (String.intercalate.go (acc ++ sep ++ a) sep as)
    rcases List.mem_cons.1 hx with rfl | hx'
    · refine strInfix_trans ⟨acc ++ sep, "", ?_⟩
        (intercalate_go_acc_substr sep as (acc ++ sep ++ x))
      simp [String.append_assoc]
    · exact ih _ x hx'

theorem mem_intercalate_substr {x : String} {l : List String} (sep : String)
    (h : x ∈ l) : strInfix x (String.intercalate sep l) := by
  cases l with
  | nil => cases h
  | cons a as =>
    show strInfix x (String.intercalate.go a sep as)
    rcases List.mem_cons.1 h with rfl | h'
    · exact intercalate_go_acc_substr sep as x
    · exact intercalate_go_mem_substr sep as a x h'

theorem compressStep_eq (ct : String → Nat) (mt : Nat) (st : CompressState)
    (f : FileDiff) :
    compressStep ct mt st f =
      if st.used + ct (entryOf f) > mt then
        { parts := st.parts, used := st.used,
          overflow := st.overflow ++ [f.filename] }
      else
        { parts := st.parts ++ [entryOf f], used := st.used + ct (entryOf f),
          overflow := st.overflow } := rfl

theorem foldl_compress_mono (ct : String → Nat) (mt : Nat) :
    ∀ (fs : List FileDiff) (st : CompressState),
      (∀ x ∈ st.parts, x ∈ (fs.foldl (compressStep ct mt) st).parts)
    ∧ (∀ x ∈ st.overflow, x ∈ (fs.foldl (compressStep ct mt) st).overflow) := by
  intro fs
  induction fs with
  | nil =>
    intro st
    exact ⟨fun x hx => hx, fun x hx => hx⟩
  | cons f fs ih =>
    intro st
    simp only [List.foldl_cons]
    constructor
    · intro x hx
      refine (ih (compressStep ct mt st f)).1 x ?_
      rw [compressStep_eq]
      split_ifs
      · exact hx
      · exact List.mem_append_left _ hx
    · intro x hx
      refine (ih (compressStep ct mt st f)).2 x ?_
      rw [compressStep_eq]
      split_ifs
      · exact List.mem_append_left _ hx
      · exact hx

theorem foldl_compress_covers (ct : String → Nat) (mt : Nat) :
    ∀ (fs : List FileDiff) (st : CompressState) (f : FileDiff), f ∈ fs →
      entryOf f ∈ (fs.foldl (compressStep ct mt) st).parts
    ∨ f.filename ∈ (fs.foldl (compressStep ct mt) st).overflow := by
  intro fs
  induction fs with
  | nil =>
    intro st f hf
    cases hf
  | cons g fs ih =>
    intro st f hf
    simp only [List.foldl_cons]
    rcases List.mem_cons.1 hf with rfl | hf'
    · rw [compressStep_eq]
      split_ifs with hb
      · right
        refine (foldl_compress_mono ct mt fs _).2 _ ?_
        exact List.mem_append_right _ (by simp)
      · left
        refine (foldl_compress_mono ct mt fs _).1 _ ?_
        exact List.mem_append_right _ (by simp)
    · exact ih _ f hf'

theorem foldl_compress_used_le (ct : String → Nat) (mt : Nat) :
    ∀ (fs : List FileDiff) (st : CompressState),
      (fs.foldl (compressStep ct mt) st).used ≤ max mt st.used := by
  intro fs
  induction fs with
  | nil =>
    intro st
    exact le_max_right _ _
  | cons f fs ih =>
    intro st
    simp only [List.foldl_cons]
    refine le_trans (ih (compressStep ct mt st f)) ?_
    have hstep : (compressStep ct mt st f).used ≤ max mt st.used := by
      rw [compressStep_eq]
      split_ifs with hb
      · exact le_max_right _ _
      · show st.used + ct (entryOf f) ≤ max mt st.used
        omega
    omega

theorem foldl_compress_used_sum (ct : String → Nat) (mt : Nat) :
    ∀ (fs : List FileDiff) (st : CompressState),
      st.used = (st.parts.map ct).sum →
      (fs.foldl (compressStep ct mt) st).used
        = (((fs.foldl (compressStep ct mt) st).parts).map ct).sum := by
  intro fs
  induction fs with
  | nil =>
    intro st h
    exact h
  | cons f fs ih =>
    intro st h
    simp only [List.foldl_cons]
    refine ih _ ?_
    rw [compressStep_eq]
    split_ifs with hb
    · exact h
    · show st.used + ct (entryOf f) = ((st.parts ++ [entryOf f]).map ct).sum
      rw [List.map_append, List.sum_append]
      simp [h]

theorem insertByAdditionsDesc_perm (f : FileDiff) (l : List FileDiff) :
    (insertByAdditionsDesc f l).Perm (f :: l) := by
  induction l with
  | nil => exact List.Perm.refl _
  | cons g gs ih =>
    unfold insertByAdditionsDesc
    split_ifs
    · exact List.Perm.refl _
    · exact (ih.cons g).trans (List.Perm.swap f g gs)

theorem sortByAdditionsDesc_perm (l : List FileDiff) :
    (sortByAdditionsDesc l).Perm l := by
  induction l with
  | nil => exact List.Perm.refl _
  | cons f fs ih =>
    exact (insertByAdditionsDesc_perm f (sortByAdditionsDesc fs)).trans (ih.cons f)

theorem compress_part_substr (ct : String → Nat) (files : List FileDiff)
    (maxTokens : Nat) :
    ∀ x ∈ (compressState ct files maxTokens).parts,
      strInfix x (compress_diff_for_summary ct files maxTokens) := by
  intro x hx
  show strInfix x (String.intercalate "\n\n"
    ((compressState ct files maxTokens).parts ++
      if (compressState ct files maxTokens).overflow.isEmpty then []
      else [overflowNotice (compressState ct files maxTokens).overflow]))
  exact mem_intercalate_substr _ (List.mem_append_left _ hx)

theorem compress_notice_substr (ct : String → Nat) (files : List FileDiff)
    (maxTokens : Nat)
    (h : (compressState ct files maxTokens).overflow ≠ []) :
    strInfix (overflowNotice (compressState ct files maxTokens).overflow)
      (compress_diff_for_summary ct files maxTokens) := by
  show strInfix _ (String.intercalate "\n\n"
    ((compressState ct files maxTokens).parts ++
      if (compressState ct files maxTokens).overflow.isEmpty then []
      else [overflowNotice (compressState ct files maxTokens).overflow]))
  have hne : (compressState ct files maxTokens).overflow.isEmpty = false := by
    cases he : (compressState ct files maxTokens).overflow with
    | nil => exact absurd he h
    | cons a l => simp [List.isEmpty]
  rw [hne]
  refine mem_intercalate_substr _ (List.mem_append_right _ ?_)
  simp

/-- C5: every file handed to `compress_diff_for_summary` appears in its
output — its name occurs literally in a packed block or in the
deleted-files line or among the first ten names of the overflow notice,
and any further overflow file is still accounted for in the notice's
count. -/
theorem compress_mentions_every_file (ct : String → Nat)
    (files : List FileDiff) (maxTokens : Nat) (f : FileDiff)
    (hf : f ∈ files) :
    strInfix f.filename (compress_diff_for_summary ct files maxTokens)
  ∨ (f.filename ∈ (compressState ct files maxTokens).overflow
    ∧ strInfix (toString (compressState ct files maxTokens).overflow.length
        ++ " additional file(s) not shown: ")
        (compress_diff_for_summary ct files maxTokens)
    ∧ (f.filename ∈ (compressState ct files maxTokens).overflow.take 10 →
        strInfix f.filename (compress_diff_for_summary ct files maxTokens))) := by
  by_cases hrem : (f.status == "removed") = true
  · -- the file is named on the deleted-files line
    left
    have hmemr : f ∈ removedFilesOf files := List.mem_filter.2 ⟨hf, hrem⟩
    have hinit : removedLineOf files ∈ (compressInit ct files).parts := by
      unfold compressInit
      have : (removedFilesOf files).isEmpty = false := by
        cases he : removedFilesOf files with
        | nil => rw [he] at hmemr; cases hmemr
        | cons a l => simp [List.isEmpty]
      rw [this]
      simp
    have hparts : removedLineOf files ∈ (compressState ct files maxTokens).parts :=
      (foldl_compress_mono ct maxTokens (activeFilesOf files)
        (compressInit ct files)).1 _ hinit
    have hline : strInfix f.filename (removedLineOf files) := by
      have hname : f.filename ∈ (removedFilesOf files).map (·.filename) :=
        List.mem_map.2 ⟨f, hmemr, rfl⟩
      refine strInfix_trans (mem_intercalate_substr ", " hname) ?_
      exact ⟨"Deleted files: ", "", by simp [removedLineOf, String.append_assoc]⟩
    exact strInfix_trans hline (compress_part_substr ct files maxTokens _ hparts)
  · -- the file is active: packed or in overflow
    have hact : f ∈ activeFilesOf files := by
      unfold activeFilesOf
      rw [(sortByAdditionsDesc_perm _).mem_iff]
      refine List.mem_filter.2 ⟨hf, ?_⟩
      simp_all
    rcases foldl_compress_covers ct maxTokens (activeFilesOf files)
        (compressInit ct files) f hact with hp | ho
    · left
      have hname : strInfix f.filename (entryOf f) := by
        refine ⟨"--- ", " (" ++ f.status ++ ", +" ++ toString f.additions ++
          "/-" ++ toString f.deletions ++ ")\n" ++ patchText f.patch, ?_⟩
        simp [entryOf, String.append_assoc]
      exact strInfix_trans hname (compress_part_substr ct files maxTokens _ hp)
    · right
      have hne : (compressState ct files maxTokens).overflow ≠ [] :=
        List.ne_nil_of_mem ho
      have hnot := compress_notice_substr ct files maxTokens hne
      refine ⟨ho, ?_, ?_⟩
      · refine strInfix_trans ?_ hnot
        refine ⟨"\n[", String.intercalate ", "
          ((compressState ct files maxTokens).overflow.take 10) ++
          (if (compressState ct files maxTokens).overflow.length > 10
            then " ...]" else "]"), ?_⟩
        simp [overflowNotice, String.append_assoc]
      · intro h10
        refine strInfix_trans ?_ hnot
        refine strInfix_trans (mem_intercalate_substr ", " h10) ?_
        refine ⟨"\n[" ++ toString (compressState ct files maxTokens).overflow.length
          ++ " additional file(s) not shown: ",
          (if (compressState ct files maxTokens).overflow.length > 10
            then " ...]" else "]"), ?_⟩
        simp [overflowNotice, String.append_assoc]

/-- Witness for C5: a concrete removed file is named in the output's
deleted-files line (token counting by string length). -/
theorem compress_mentions_every_file_witness :
    strInfix "old.py" (compress_diff_for_summary String.length
      [{ filename := "old.py", status := "removed", additions := 0,
         deletions := 0, patch := Option.none, language := "" }] 200) := by
  have h := compress_mentions_every_file String.length
    [{ filename := "old.py", status := "removed", additions := 0,
       deletions := 0, patch := Option.none, language := "" }] 200
    { filename := "old.py", status := "removed", additions := 0,
      deletions := 0, patch := Option.none, language := "" } (by decide)
  rcases h with h | h
  · exact h
  · rcases h with ⟨hmem, -, -⟩
    exact absurd hmem (by decide)

/-- C6 counterexample: with token counting by string length (an
admissible instance of the abstract estimator, which is external to the
repository), one removed file and a budget of 0 tokens, the
deleted-files line is packed with no budget check, so the token total of
the packed blocks alone exceeds `max_tokens`. -/
theorem compress_budget_counterexample :
    (compressState String.length
      [{ filename := "a.py", status := "removed", additions := 0,
         deletions := 0, patch := Option.none, language := "" }] 0).parts
      = ["Deleted files: a.py"]
  ∧ ¬ (((compressState String.length
      [{ filename := "a.py", status := "removed", additions := 0,
         deletions := 0, patch := Option.none, language := "" }] 0).parts.map
      String.length).sum ≤ 0) := by
  refine ⟨by decide, by decide⟩

/-- C6 (amended): the token total of the packed blocks never exceeds
`max_tokens` except by the allowance of the deleted-files line, which is
counted but never budget-checked; a file whose block would overflow the
budget is diverted to the overflow list with the parts unchanged, and
iteration continues, so a later smaller block can still be packed after
a larger one was skipped (demonstrated on a concrete pair of files). -/
theorem compress_budget_bound :
    (∀ (ct : String → Nat) (files : List FileDiff) (maxTokens : Nat),
      ((compressState ct files maxTokens).parts.map ct).sum
        ≤ max maxTokens (ct (removedLineOf files)))
  ∧ (∀ (ct : String → Nat) (maxTokens : Nat) (st : CompressState)
      (f : FileDiff), st.used + ct (entryOf f) > maxTokens →
      (compressStep ct maxTokens st f).parts = st.parts
      ∧ (compressStep ct maxTokens st f).overflow = st.overflow ++ [f.filename])
  ∧ (compressState String.length
      [{ filename := "big.py", status := "modified", additions := 9,
         deletions := 0, patch := some "+aaaaaaaaaaaaaaaaaaaaaaaaaaaaa",
         language := "" },
       { filename := "small.py", status := "modified", additions := 1,
         deletions := 0, patch := some "+x", language := "" }] 40).parts
      = ["--- small.py (modified, +1/-0)\n+x"]
  ∧ (compressState String.length
      [{ filename := "big.py", status := "modified", additions := 9,
         deletions := 0, patch := some "+aaaaaaaaaaaaaaaaaaaaaaaaaaaaa",
         language := "" },
       { filename := "small.py", status := "modified", additions := 1,
         deletions := 0, patch := some "+x", language := "" }] 40).overflow
      = ["big.py"] := by
  refine ⟨?_, ?_, by decide, by decide⟩
  · intro ct files mt
    have hinit : (compressInit ct files).used
        = ((compressInit ct files).parts.map ct).sum := by
      unfold compressInit
      split_ifs
      · rfl
      · simp
    have hsum := foldl_compress_used_sum ct mt (activeFilesOf files)
      (compressInit ct files) hinit
    have hle := foldl_compress_used_le ct mt (activeFilesOf files)
      (compressInit ct files)
    rw [hsum] at hle
    have hinitle : (compressInit ct files).used ≤ ct (removedLineOf files) := by
      unfold compressInit
      split_ifs
      · exact Nat.zero_le _
      · exact le_refl _
    unfold compressState
    omega
  · intro ct mt st f hb
    rw [compressStep_eq]
    rw [if_pos hb]
    exact ⟨rfl, rfl⟩

-- ── Lemmas about the Review Pipeline ─────────────────────────────────────

theorem lineMembershipOrRepair_mem {lineV : PyVal} {m : LineMap} {n : Int}
    (h : lineMembershipOrRepair lineV m = .ok (some n)) :
    dictMem n m = true := by
  unfold lineMembershipOrRepair at h
  cases hint : pyIntLike lineV with
  | some k =>
    rw [hint] at h
    dsimp only at h
    split_ifs at h with hk
    · have hkn : k = n := by
        injection h with h'
        injection h' with h''
      rw [← hkn]
      exact hk
    · have hfc : find_closest_line k m = some n := by
        injection h
      exact (find_closest_line_mem hfc).1
  | none =>
    rw [hint] at h
    dsimp only at h
    cases lineV with
    | str s =>
      split_ifs at h
      all_goals simp at h
    | null => simp at h
    | bool b => simp at h
    | int k => simp at h
    | list xs => simp at h
    | dict d => simp at h

theorem reviewCandidate_mem {f : FileDiff} {m : LineMap}
    {d : List (String × PyVal)} {c : ReviewComment}
    (h : reviewCandidate f m d = .ok (some c)) :
    dictMem c.line m = true := by
  unfold reviewCandidate at h
  split at h
  · rename_i bodyRaw hb
    dsimp only at h
    split_ifs at h with hskip
    · simp at h
    · split at h
      · simp at h
      · simp at h
      · rename_i line hrep
        split at h
        · simp at h
        · split at h
          · simp at h
          · injection h with h'
            injection h' with h''
            rw [← h'']
            exact lineMembershipOrRepair_mem hrep
  · simp at h

theorem reviewLoop_mem {f : FileDiff} {m : LineMap} :
    ∀ {items : List PyVal} {cs : List ReviewComment},
      reviewLoop f m items = .ok cs → ∀ c ∈ cs, dictMem c.line m = true := by
  intro items
  induction items with
  | nil =>
    intro cs h c hc
    have h0 : (Except.ok ([] : List ReviewComment) : Except PyErr _)
        = Except.ok cs := h
    injection h0 with h'
    rw [← h'] at hc
    cases hc
  | cons item rest ih =>
    intro cs h c hc
    cases item with
    | dict d =>
      rw [reviewLoop] at h
      split at h
      · simp at h
      · rename_i c? hcand
        split at h
        · simp at h
        · rename_i cs' hrest
          injection h with h'
          rw [← h'] at hc
          rcases List.mem_append.1 hc with hc | hc
          · cases c? with
            | none => cases hc
            | some c0 =>
              have hcc : c = c0 := by simpa using hc
              rw [hcc]
              exact reviewCandidate_mem hcand
          · exact ih hrest c hc
    | null => exact ih h c hc
    | bool b => exact ih h c hc
    | int n => exact ih h c hc
    | str s => exact ih h c hc
    | list xs => exact ih h c hc

theorem suggestCandidate_mem {f : FileDiff} {m : LineMap}
    {d : List (String × PyVal)} {c : ReviewComment}
    (h : suggestCandidate f m d = .ok (some c)) :
    dictMem c.line m = true := by
  unfold suggestCandidate at h
  split at h
  · rename_i stmtRaw hst
    split at h
    · rename_i reasonRaw hre
      split at h
      · rename_i levelRaw hle
        dsimp only at h
        by_cases hskip :
            (!pyTruthy (pyGet d "line" PyVal.null)
              || (pyStrip stmtRaw).isEmpty) = true
        · rw [if_pos hskip] at h
          simp at h
        · rw [if_neg hskip] at h
          split at h
          · simp at h
          · simp at h
          · rename_i line hrep
            injection h with h'
            injection h' with h''
            rw [← h'']
            exact lineMembershipOrRepair_mem hrep
      · simp at h
    · simp at h
  · simp at h

theorem suggestLoop_mem {f : FileDiff} {m : LineMap} :
    ∀ {items : List PyVal} {cs : List ReviewComment},
      suggestLoop f m items = .ok cs → ∀ c ∈ cs, dictMem c.line m = true := by
  intro items
  induction items with
  | nil =>
    intro cs h c hc
    have h0 : (Except.ok ([] : List ReviewComment) : Except PyErr _)
        = Except.ok cs := h
    injection h0 with h'
    rw [← h'] at hc
    cases hc
  | cons item rest ih =>
    intro cs h c hc
    cases item with
    | dict d =>
      rw [suggestLoop] at h
      split at h
      · simp at h
      · rename_i c? hcand
        split at h
        · simp at h
        · rename_i cs' hrest
          injection h with h'
          rw [← h'] at hc
          rcases List.mem_append.1 hc with hc | hc
          · cases c? with
            | none => cases hc
            | some c0 =>
              have hcc : c = c0 := by simpa using hc
              rw [hcc]
              exact suggestCandidate_mem hcand
          · exact ih hrest c hc
    | null => exact ih h c hc
    | bool b => exact ih h c hc
    | int n => exact ih h c hc
    | str s => exact ih h c hc
    | list xs => exact ih h c hc

/-- C4: every comment constructed by the per-file review pass and by the
logging-suggestion pass carries a line number that is a key of the
LineMap parsed from that file's patch — the original number when it was
already a key, or the repaired nearby key; candidates with unrepairable
lines yield no comment. -/
theorem reviewed_lines_valid (out : GwOutcome) (f : FileDiff) :
    (∀ cs, reviewSingleFile out f = .ok cs →
      ∀ c ∈ cs, dictMem c.line (parse_patch_line_map (patchOf f)) = true)
  ∧ (∀ cs, suggestSingleFile out f = .ok cs →
      ∀ c ∈ cs, dictMem c.line (parse_patch_line_map (patchOf f)) = true) := by
  have hnil : ∀ (cs : List ReviewComment),
      (Except.ok ([] : List ReviewComment) : Except PyErr _) = Except.ok cs →
      ∀ c ∈ cs, dictMem c.line (parse_patch_line_map (patchOf f)) = true := by
    intro cs h c hc
    injection h with h'
    rw [← h'] at hc
    cases hc
  constructor
  · intro cs h c hc
    cases out with
    | err => exact hnil cs h c hc
    | ok data =>
      cases data with
      | list items => exact reviewLoop_mem h c hc
      | null => exact hnil cs h c hc
      | bool b => exact hnil cs h c hc
      | int n => exact hnil cs h c hc
      | str s => exact hnil cs h c hc
      | dict d => exact hnil cs h c hc
  · intro cs h c hc
    cases out with
    | err => exact hnil cs h c hc
    | ok data =>
      cases data with
      | list items => exact suggestLoop_mem h c hc
      | null => exact hnil cs h c hc
      | bool b => exact hnil cs h c hc
      | int n => exact hnil cs h c hc
      | str s => exact hnil cs h c hc
      | dict d => exact hnil cs h c hc

/-- Witness for C4: a concrete candidate at line 2 of a one-addition
patch is kept, and its line is a key of the parsed map. -/
theorem reviewed_lines_valid_witness :
    reviewSingleFile (GwOutcome.ok (PyVal.list
      [PyVal.dict [("line", PyVal.int 2), ("body", PyVal.str "B"),
        ("severity", PyVal.str "warning"), ("category", PyVal.str "security")]]))
      { filename := "f.py", status := "modified", additions := 1, deletions := 0,
        patch := some "@@ -1,1 +1,2 @@\n ctx\n+added\n", language := "python" }
      = Except.ok [
          { path := "f.py", line := 2,
            body := ":warning: **WARNING** | Security\n\nB",
            severity := ReviewSeverity.warning,
            category := ReviewCategory.security }]
  ∧ dictMem 2 (parse_patch_line_map (patchOf
      { filename := "f.py", status := "modified", additions := 1, deletions := 0,
        patch := some "@@ -1,1 +1,2 @@\n ctx\n+added\n", language := "python" }))
      = true := by
  refine ⟨rfl, ?_⟩
  exact (reviewed_lines_valid (GwOutcome.ok (PyVal.list
      [PyVal.dict [("line", PyVal.int 2), ("body", PyVal.str "B"),
        ("severity", PyVal.str "warning"), ("category", PyVal.str "security")]]))
      { filename := "f.py", status := "modified", additions := 1, deletions := 0,
        patch := some "@@ -1,1 +1,2 @@\n ctx\n+added\n", language := "python" }).1
    [
      { path := "f.py", line := 2,
        body := ":warning: **WARNING** | Security\n\nB",
        severity := ReviewSeverity.warning,
        category := ReviewCategory.security }]
    rfl
    ({ path := "f.py", line := 2,
       body := ":warning: **WARNING** | Security\n\nB",
       severity := ReviewSeverity.warning,
       category := ReviewCategory.security })
    (by decide)

theorem gatherFoldAux (step : List ReviewComment →
      Except PyErr (List ReviewComment) → List ReviewComment)
    (hstep : step = fun acc r => match r with
      | .error _ => acc
      | .ok cs => acc ++ cs) :
    ∀ (results : List (Except PyErr (List ReviewComment)))
      (acc : List ReviewComment),
      results.foldl step acc
        = acc ++ results.flatMap (fun r => match r with
            | .ok cs => cs
            | .error _ => []) := by
  intro results
  induction results with
  | nil =>
    intro acc
    simp
  | cons r rs ih =>
    intro acc
    simp only [List.foldl_cons, List.flatMap_cons]
    rw [ih]
    cases r with
    | ok cs => simp [hstep]
    | error e => simp [hstep]

theorem gatherFold_eq_flatMap
    (results : List (Except PyErr (List ReviewComment))) :
    gatherFold results = results.flatMap (fun r => match r with
      | .ok cs => cs
      | .error _ => []) := by
  unfold gatherFold
  rw [gatherFoldAux _ rfl]
  simp

/-- C7: the Stage-1 and Stage-2 results are the concatenation, in file
order, of isolated per-file contributions; a file whose gateway call
raises, whose payload is not a JSON array, or whose candidate loop
raises contributes zero findings, and the sibling files' contributions
are unaffected. -/
theorem per_file_failure_isolated (gwR gwL : FileDiff → GwOutcome)
    (files : List FileDiff) (f : FileDiff) :
    reviewFiles gwR files
      = (files.filter hasPatch).flatMap (reviewContrib gwR)
  ∧ suggestFiles gwL files
      = (files.filter hasPatch).flatMap (suggestContrib gwL)
  ∧ ((gwR f = .err ∨ (∃ d, gwR f = .ok d ∧ d.isList = false)
      ∨ ∃ e, reviewSingleFile (gwR f) f = .error e) →
      reviewContrib gwR f = [])
  ∧ ((gwL f = .err ∨ (∃ d, gwL f = .ok d ∧ d.isList = false)
      ∨ ∃ e, suggestSingleFile (gwL f) f = .error e) →
      suggestContrib gwL f = []) := by
  refine ⟨?_, ?_, ?_, ?_⟩
  · unfold reviewFiles
    rw [gatherFold_eq_flatMap, List.flatMap_map]
    rfl
  · unfold suggestFiles
    rw [gatherFold_eq_flatMap, List.flatMap_map]
    rfl
  · intro h
    unfold reviewContrib
    rcases h with h | ⟨d, hd, hnl⟩ | ⟨e, he⟩
    · rw [h]
      rfl
    · rw [hd]
      cases d with
      | list xs => simp [PyVal.isList] at hnl
      | null => rfl
      | bool b => rfl
      | int n => rfl
      | str s => rfl
      | dict entries => rfl
    · rw [he]
  · intro h
    unfold suggestContrib
    rcases h with h | ⟨d, hd, hnl⟩ | ⟨e, he⟩
    · rw [h]
      rfl
    · rw [hd]
      cases d with
      | list xs => simp [PyVal.isList] at hnl
      | null => rfl
      | bool b => rfl
      | int n => rfl
      | str s => rfl
      | dict entries => rfl
    · rw [he]

/-- Witness for C7: with a gateway that throws for every file, a file's
contribution is empty. -/
theorem per_file_failure_isolated_witness :
    reviewContrib (fun _ => GwOutcome.err)
      { filename := "f.py", status := "modified", additions := 1,
        deletions := 0, patch := some "@@ -1,1 +1,2 @@\n ctx\n+added\n",
        language := "python" } = [] :=
  (per_file_failure_isolated (fun _ => GwOutcome.err)
    (fun _ => GwOutcome.err)
    [{ filename := "f.py", status := "modified", additions := 1,
       deletions := 0, patch := some "@@ -1,1 +1,2 @@\n ctx\n+added\n",
       language := "python" }]
    { filename := "f.py", status := "modified", additions := 1,
      deletions := 0, patch := some "@@ -1,1 +1,2 @@\n ctx\n+added\n",
      language := "python" }).2.2.1 (Or.inl rfl)

/-- C8: when the Stage-0 gateway call raises (covering transport and
JSON-parse failures) or returns a non-object payload, the pipeline
returns the deterministic fallback summary built from the PR title,
changed-file count and add/delete counts, and the per-file review and
logging passes still run and contribute their comments normally. -/
theorem summary_fallback (sumOut : GwOutcome)
    (mk : List (String × PyVal) → Except PyErr PRSummary)
    (gwR gwL : FileDiff → GwOutcome) (sl : Bool) (title : String)
    (adds dels : Nat) (files : List FileDiff) (skipped : List String)
    (h : sumOut = GwOutcome.err
      ∨ ∃ d, sumOut = GwOutcome.ok d ∧ d.isDict = false) :
    (runReview sumOut mk gwR gwL sl title adds dels files skipped).summary
      = fallbackSummary title (files.length + skipped.length) adds dels
  ∧ (runReview sumOut mk gwR gwL sl title adds dels files skipped).summary.purpose
      = "Changes in " ++ toString (files.length + skipped.length)
        ++ " file(s): " ++ title
  ∧ (runReview sumOut mk gwR gwL sl title adds dels files skipped).summary.changes
      = ["+" ++ toString adds ++ "/-" ++ toString dels ++ " lines changed"]
  ∧ (runReview sumOut mk gwR gwL sl title adds dels files skipped).comments
      = (if sl then reviewFiles gwR files ++ suggestFiles gwL files
         else reviewFiles gwR files) := by
  have hsum : generate_summary sumOut mk title (files.length + skipped.length)
      adds dels = fallbackSummary title (files.length + skipped.length) adds dels := by
    rcases h with h | ⟨d, hd, hnd⟩
    · rw [h]
      rfl
    · rw [hd]
      cases d with
      | dict e => simp [PyVal.isDict] at hnd
      | null => rfl
      | bool b => rfl
      | int n => rfl
      | str s => rfl
      | list xs => rfl
  refine ⟨hsum, ?_, ?_, rfl⟩
  · show (generate_summary sumOut mk title (files.length + skipped.length)
      adds dels).purpose = _
    rw [hsum]
    rfl
  · show (generate_summary sumOut mk title (files.length + skipped.length)
      adds dels).changes = _
    rw [hsum]
    rfl

/-- Witness for C8: a throwing summary gateway on a concrete run yields
the deterministic fallback purpose string. -/
theorem summary_fallback_witness :
    (runReview GwOutcome.err (fun _ => Except.error PyErr.typeError)
      (fun _ => GwOutcome.err) (fun _ => GwOutcome.err) true "Fix bug" 15 0
      [] ["a.lock"]).summary.purpose = "Changes in 1 file(s): Fix bug" := by
  have h := summary_fallback GwOutcome.err (fun _ => Except.error PyErr.typeError)
    (fun _ => GwOutcome.err) (fun _ => GwOutcome.err) true "Fix bug" 15 0
    [] ["a.lock"] (Or.inl rfl)
  rw [h.2.1]
  rfl

/-- C10: a gateway payload whose `severity` field is a number makes the
candidate loop raise `AttributeError` (from `value.lower()`, which
`_safe_enum` does not catch), so that file yields zero comments even for
the valid sibling candidate in the same array, while the gather step
absorbs the exception and the other file's comments survive. -/
theorem nonstring_severity_aborts_file :
    reviewSingleFile (GwOutcome.ok (PyVal.list
      [PyVal.dict [("line", PyVal.int 2), ("body", PyVal.str "ok"),
        ("severity", PyVal.int 3)],
       PyVal.dict [("line", PyVal.int 2), ("body", PyVal.str "valid"),
        ("severity", PyVal.str "warning"),
        ("category", PyVal.str "security")]]))
      { filename := "a.py", status := "modified", additions := 1,
        deletions := 0, patch := some "@@ -1,1 +1,2 @@\n ctx\n+added\n",
        language := "python" }
      = Except.error PyErr.attributeError
  ∧ reviewFiles
      (fun f => if f.filename == "a.py" then
        GwOutcome.ok (PyVal.list
          [PyVal.dict [("line", PyVal.int 2), ("body", PyVal.str "ok"),
            ("severity", PyVal.int 3)],
           PyVal.dict [("line", PyVal.int 2), ("body", PyVal.str "valid"),
            ("severity", PyVal.str "warning"),
            ("category", PyVal.str "security")]])
      else
        GwOutcome.ok (PyVal.list
          [PyVal.dict [("line", PyVal.int 2), ("body", PyVal.str "valid"),
            ("severity", PyVal.str "warning"),
            ("category", PyVal.str "security")]]))
      [{ filename := "a.py", status := "modified", additions := 1,
         deletions := 0, patch := some "@@ -1,1 +1,2 @@\n ctx\n+added\n",
         language := "python" },
       { filename := "b.py", status := "modified", additions := 1,
         deletions := 0, patch := some "@@ -1,1 +1,2 @@\n ctx\n+added\n",
         language := "python" }]
      = [
        { path := "b.py", line := 2,
          body := ":warning: **WARNING** | Security\n\nvalid",
          severity := ReviewSeverity.warning,
          category := ReviewCategory.security }] :=
  ⟨rfl, rfl⟩

end PRAgent
